import Mathlib

/-!
# Blox Battles — verification of the duel/ledger/deposit core

Shallow embedding of the backend of the Blox Battles wagering platform:
the database schema (`schema.sql`), the duel expiry cron job
(`backend/server.js`), the result-confirmation route
(`backend/routes/tasks.js`), the transaction listener service
(`backend/services/transactionListenerService.js`), the bot
authentication middleware (`backend/middleware/auth.js`), the bot
status routes (`backend/routes/status.js`) and the log-file route
(`backend/routes/logs.js`), together with theorems settling the
specification's claims about them.
-/

namespace BloxBattles

/-- JavaScript `String.prototype.toLowerCase()` restricted to the
alphabets that occur in the repository (hex addresses). -/
def jsToLower (s : String) : String := s.map Char.toLower

/-! ## Database schema (schema.sql, embedded in `render.yaml`)

Column types as they appear in the `CREATE TABLE` statements. -/

/-- SQL column types used by `schema.sql`. -/
inductive ColType where
  | serial
  | integer
  | varcharN (n : Nat)
  | decimalPS (p s : Nat)
  | text
  | jsonb
  | boolean
  | timestamptz
  deriving DecidableEq, Repr

/-- `users` table columns (schema.sql). `balance DECIMAL(12, 2) DEFAULT 0.00`. -/
def usersColumns : List (String × ColType) :=
  [("id", .serial), ("username", .varcharN 255), ("email", .varcharN 255),
   ("password_hash", .varcharN 255), ("balance", .decimalPS 12 2),
   ("created_at", .timestamptz), ("updated_at", .timestamptz),
   ("role", .varcharN 50), ("status", .varcharN 50),
   ("google_id", .varcharN 255), ("avatar_url", .varcharN 255)]

/-- `transactions` table columns (schema.sql). `amount DECIMAL(12, 2)`,
`tx_hash VARCHAR(255) UNIQUE`. -/
def transactionsColumns : List (String × ColType) :=
  [("id", .serial), ("user_id", .integer), ("type", .varcharN 50),
   ("amount", .decimalPS 12 2), ("status", .varcharN 50),
   ("tx_hash", .varcharN 255), ("description", .text),
   ("created_at", .timestamptz)]

/-- `duels` table columns (schema.sql). `amount DECIMAL(12, 2)`. -/
def duelsColumns : List (String × ColType) :=
  [("id", .serial), ("creator_id", .integer), ("opponent_id", .integer),
   ("amount", .decimalPS 12 2), ("status", .varcharN 50),
   ("winner_id", .integer), ("game_data", .jsonb),
   ("created_at", .timestamptz), ("updated_at", .timestamptz)]

/-- `payouts` table columns (schema.sql). `amount DECIMAL(12, 2)`. -/
def payoutsColumns : List (String × ColType) :=
  [("id", .serial), ("user_id", .integer), ("amount", .decimalPS 12 2),
   ("address", .varcharN 255), ("status", .varcharN 50),
   ("tx_hash", .varcharN 255), ("error_message", .text),
   ("created_at", .timestamptz), ("updated_at", .timestamptz)]

/-- Type of a named column of a table. -/
def columnType (cols : List (String × ColType)) (name : String) : Option ColType :=
  cols.lookup name

/-- A column type stores exact integers (and nothing else) precisely when it
is one of PostgreSQL's integer families; `DECIMAL(p, s)` with `s > 0`,
`VARCHAR`, `JSONB`, … are not integer-typed. -/
def isIntegerColumn : ColType → Bool
  | .serial => true
  | .integer => true
  | _ => false

/-- The exact set of values representable by a PostgreSQL `DECIMAL(p, s)`
column: rationals of the form `k / 10^s` with at most `p` significant
digits.  PostgreSQL `NUMERIC`/`DECIMAL` is exact (no binary floating
point), but with `s > 0` it admits fractional values. -/
def decimalRepresentable (p s : Nat) (q : ℚ) : Prop :=
  ∃ k : ℤ, k.natAbs < 10 ^ p ∧ q = (k : ℚ) / 10 ^ s

/-! ## Application database state

Rows of the tables the settled claims touch.  Statuses are the string
literals the routes use (`'pending'`, `'active'`, `'completed_unseen'`,
`'completed'`, …). -/

/-- A row of the `duels` table (the columns the handlers under test read
or write; `player1_id`/`player2_id` are the participant columns used by
`routes/tasks.js`). -/
structure DuelRow where
  id : Nat
  player1 : Nat
  player2 : Nat
  status : String
  winner : Option Nat
  created_at : Int
  deriving DecidableEq, Repr

/-- A row of the `transactions` table (fields relevant to the claims). -/
structure TransRow where
  txHash : String
  userId : Nat
  amount : Int
  deriving DecidableEq, Repr

/-- The durable state visible to the duel routes: the `duels` table,
the users' balances (`users.id ↦ users.balance`) and the `transactions`
table. -/
structure AppDB where
  duels : List DuelRow
  users : List (Nat × Int)
  transactions : List TransRow
  deriving DecidableEq, Repr

/-! ## Expired-duel cleanup cron job (`backend/server.js`)

```
cron.schedule('* * * * *', async () => {
    const fiveMinutesAgo = new Date(Date.now() - 5 * 60 * 1000);
    const query = `DELETE FROM duels WHERE status = 'pending' AND created_at < $1`;
    await db.query(query, [fiveMinutesAgo]);
});
```
-/

/-- One run of the expired-duel cleanup job at wall-clock time `now`
(milliseconds): `DELETE FROM duels WHERE status = 'pending' AND
created_at < now - 5*60*1000`. -/
def cleanupExpiredDuels (now : Int) (db : AppDB) : AppDB :=
  { db with
      duels := db.duels.filter
        (fun d => decide (¬(d.status = "pending" ∧ d.created_at < now - 5 * 60 * 1000))) }

/-! ## Result confirmation (`backend/routes/tasks.js`, POST /confirm-result/:duelId)

```
const duelCheckQuery = 'SELECT * FROM duels WHERE id = $1 AND (player1_id = $2 OR player2_id = $2)';
if (duelCheckResult.rows.length === 0) return res.status(403)...
const updateQuery = "UPDATE duels SET status = 'completed' WHERE id = $1 AND status = 'completed_unseen'";
if (result.rowCount > 0) res.status(200)... else res.status(409)...
```
-/

/-- HTTP outcomes of the confirm-result handler: 200 OK, 409 Conflict,
403 Forbidden. -/
inductive ApiResp where
  | ok
  | conflict
  | forbidden
  deriving DecidableEq, Repr

/-- The participant check: `SELECT * FROM duels WHERE id = $1 AND
(player1_id = $2 OR player2_id = $2)`. -/
def duelCheckRows (db : AppDB) (duelId userId : Nat) : List DuelRow :=
  db.duels.filter
    (fun d => decide (d.id = duelId ∧ (d.player1 = userId ∨ d.player2 = userId)))

/-- Effect of the guarded UPDATE on one row: `SET status = 'completed'
WHERE id = $1 AND status = 'completed_unseen'`. -/
def applyConfirm (duelId : Nat) (d : DuelRow) : DuelRow :=
  if d.id = duelId ∧ d.status = "completed_unseen"
  then { d with status := "completed" } else d

/-- `result.rowCount` of the guarded UPDATE. -/
def unseenCount (db : AppDB) (duelId : Nat) : Nat :=
  db.duels.countP (fun d => decide (d.id = duelId ∧ d.status = "completed_unseen"))

/-- The POST `/api/tasks/confirm-result/:duelId` handler: participant
check (403 on failure), then the status-guarded update, with a zero-row
update reported as 409 Conflict. -/
def confirmResult (db : AppDB) (duelId userId : Nat) : ApiResp × AppDB :=
  if (duelCheckRows db duelId userId).isEmpty then
    (.forbidden, db)
  else
    if unseenCount db duelId > 0 then
      (.ok, { db with duels := db.duels.map (applyConfirm duelId) })
    else
      (.conflict, { db with duels := db.duels.map (applyConfirm duelId) })

/-! ## Ledger credit (Deposit Confirmation Service)

The service itself (`backend/services/transactionConfirmationService.js`)
is not part of the source tree; only its import and the `transactions`
table (`tx_hash VARCHAR(255) UNIQUE`) are. -/

/-- The running balances / history state of the Ledger Store. -/
structure Ledger where
  balances : List (Nat × Int)
  history : List TransRow
  deriving DecidableEq, Repr

/-- Balance of an account (missing account reads as 0). -/
def getBal (st : Ledger) (u : Nat) : Int :=
  (st.balances.lookup u).getD 0

/-- Modelled from the spec: `creditDeposit(txHash, accountId, amount)` of
§4.1 — the concrete `transactionConfirmationService.js` is missing from
the source tree.  Looks up the `tx_hash` (which is `UNIQUE` in the
`transactions` table); if a row already exists the call is absorbed and
the original row is returned; otherwise the history row and the balance
increase are committed together. -/
def creditDeposit (txHash : String) (accountId : Nat) (amount : Int)
    (st : Ledger) : TransRow × Ledger :=
  match st.history.find? (fun r => decide (r.txHash = txHash)) with
  | some r => (r, st)
  | none =>
      (⟨txHash, accountId, amount⟩,
       ⟨(accountId, getBal st accountId + amount) :: st.balances,
        ⟨txHash, accountId, amount⟩ :: st.history⟩)

/-- Number of `transactions` rows carrying a given `tx_hash`. -/
def hashCount (st : Ledger) (h : String) : Nat :=
  st.history.countP (fun r => decide (r.txHash = h))

/-- Fold an arbitrary sequence of `creditDeposit` calls
`(txHash, accountId, amount)` over a ledger state. -/
def applyCredits (calls : List (String × Nat × Int)) (st : Ledger) : Ledger :=
  calls.foldl (fun s c => (creditDeposit c.1 c.2.1 c.2.2 s).2) st

/-! ## Transaction listener (`backend/services/transactionListenerService.js`) -/

/-- The listener's state: the durable `monitored_addresses` table and the
in-memory `monitoredAddresses` JavaScript `Set`. -/
structure ListenerState where
  store : Finset String
  monitored : Finset String
  deriving DecidableEq

/-- `loadMonitoredAddresses()`: `monitoredAddresses = new Set(rows.map(r => r.address))`. -/
def loadMonitoredAddresses (st : ListenerState) : ListenerState :=
  { st with monitored := st.store }

/-- `addMonitoredAddress(address)`: early return when the lowercased
address is already in the set; otherwise `INSERT ... ON CONFLICT
(address) DO NOTHING` and `monitoredAddresses.add(address.toLowerCase())`. -/
def addMonitoredAddress (st : ListenerState) (address : String) : ListenerState :=
  if jsToLower address ∈ st.monitored then st
  else { store := insert (jsToLower address) st.store,
         monitored := insert (jsToLower address) st.monitored }

/-- `removeMonitoredAddress(address)`: `DELETE FROM monitored_addresses
WHERE address = $1` with the lowercased address, and
`monitoredAddresses.delete(address.toLowerCase())`. -/
def removeMonitoredAddress (st : ListenerState) (address : String) : ListenerState :=
  { store := st.store.erase (jsToLower address),
    monitored := st.monitored.erase (jsToLower address) }

/-- Snapshot of module initialization: the filter array passed to the
feed subscription and the working set after the load settles. -/
structure ListenerInit where
  monitored : List String
  subFilter : List String
  deriving DecidableEq, Repr

/-- Module initialization of the listener service, following the
JavaScript event loop: `monitoredAddresses` starts as `new Set()`;
`loadMonitoredAddresses()` is called without `await`, so its
continuation (the `Set` reassignment) runs only after the synchronous
module body finishes; `alchemy.ws.on({ ..., toAddress:
Array.from(monitoredAddresses) }, cb)` therefore evaluates
`Array.from` against the still-empty set; afterwards the deferred load
resolves and replaces the set with the store's rows. -/
def initListener (storeRows : List String) : ListenerInit :=
  let m0 : List String := []
  let filter := m0
  let m1 := storeRows
  { monitored := m1, subFilter := filter }

/-- The subscription callback: `if (tx.to &&
monitoredAddresses.has(tx.to.toLowerCase())) handleTransaction(...)`.
Returns whether the Confirmation Service is notified. -/
def onPendingTx (monitored : List String) (txTo : Option String) : Bool :=
  match txTo with
  | none => false
  | some toAddr => monitored.contains (jsToLower toAddr)

/-! ## Bot authentication and status (`middleware/auth.js`, `routes/status.js`) -/

/-- The request fields the status routes can observe.  `xApiKey` is the
`x-api-key` header, `authorizationHeader` the `Authorization` header a
user session would use, `sessionUser` a logged-in user, if any. -/
structure BotRequest where
  xApiKey : Option String
  authorizationHeader : Option String
  sessionUser : Option Nat
  deriving DecidableEq, Repr

/-- Outcome of the `authenticateBot` middleware: pass through to the
handler, 401 Unauthorized, or 500 Server Configuration Error. -/
inductive AuthOutcome where
  | next
  | unauthorized
  | serverError
  deriving DecidableEq, Repr

/-- JavaScript truthiness of a possibly-missing string (both `undefined`
and `''` are falsy). -/
def jsTruthy : Option String → Bool
  | none => false
  | some s => s != ""

/-- `authenticateBot` (`backend/middleware/auth.js`): 500 when
`BOT_API_KEY` is unset, 401 when the `x-api-key` header is missing or
differs from it, otherwise `next()`. -/
def authenticateBot (req : BotRequest) (botApiKey : Option String) : AuthOutcome :=
  if jsTruthy botApiKey then
    if jsTruthy req.xApiKey && (req.xApiKey == botApiKey) then .next
    else .unauthorized
  else .serverError

/-- The region whitelist of the heartbeat validator:
`body('region').isIn(['Oceania', 'Europe', 'North America'])`. -/
def heartbeatRegions : List String := ["Oceania", "Europe", "North America"]

/-- `BOT_OFFLINE_THRESHOLD = 45 * 1000`. -/
def botOfflineThreshold : Int := 45 * 1000

/-- Responses of the heartbeat route. -/
inductive HbResp where
  | ok
  | badRequest
  | unauthorized
  | serverError
  deriving DecidableEq, Repr

/-- JavaScript `Map.set`: replace any existing entry for the key. -/
def mapSet (m : List (String × Int)) (k : String) (v : Int) : List (String × Int) :=
  (k, v) :: m.filter (fun p => p.1 ≠ k)

/-- POST `/api/status/heartbeat`: `authenticateBot`, then the region
whitelist validation, then `botStatus.set(region, Date.now())`. -/
def heartbeatRoute (req : BotRequest) (botApiKey : Option String)
    (region : String) (now : Int) (bots : List (String × Int)) :
    HbResp × List (String × Int) :=
  match authenticateBot req botApiKey with
  | .next =>
      if region ∈ heartbeatRegions then (.ok, mapSet bots region now)
      else (.badRequest, bots)
  | .unauthorized => (.unauthorized, bots)
  | .serverError => (.serverError, bots)

/-- The region list GET `/api/status/bots` iterates over. -/
def displayRegions : List String := ["North America", "Europe", "Oceania"]

/-- `const lastHeartbeat = botStatus.get(region); const isOnline =
lastHeartbeat && (now - lastHeartbeat < BOT_OFFLINE_THRESHOLD)` —
note the JavaScript truthiness check (a stored timestamp of `0` is
falsy). -/
def botOnline (bots : List (String × Int)) (now : Int) (region : String) : Bool :=
  match bots.lookup region with
  | none => false
  | some t => if t = 0 then false else decide (now - t < botOfflineThreshold)

/-- GET `/api/status/bots`: one `(region, isOnline)` entry per display
region. -/
def getBots (bots : List (String × Int)) (now : Int) : List (String × Bool) :=
  displayRegions.map (fun r => (r, botOnline bots now r))

/-! ## Log file route (`backend/routes/logs.js`, GET /:filename)

```
if (filename.includes('..') || !filename.endsWith('.log')) return res.status(400)...
const filePath = path.join(logsDirectory, filename);
const data = await fs.readFile(filePath, 'utf8');
```

Paths are modelled as lists of `/`-separated segments of characters;
`path.join` concatenates and normalizes (`.`/empty segments dropped,
`..` pops). -/

/-- `filename.includes('..')`: two consecutive dots occur somewhere. -/
def hasDD : List Char → Bool
  | a :: b :: rest => (a = '.' && b = '.') || hasDD (b :: rest)
  | _ => false

/-- The characters of `".log"`. -/
def dotLog : List Char := ['.', 'l', 'o', 'g']

/-- `filename.endsWith('.log')`. -/
def endsWithLog (cs : List Char) : Bool :=
  decide (cs.reverse.take 4 = ['g', 'o', 'l', '.'])

/-- Split a character list into its `/`-separated segments (always
non-empty, like `String.prototype.split('/')`). -/
def splitSlash : List Char → List (List Char)
  | [] => [[]]
  | c :: rest =>
      if c = '/' then [] :: splitSlash rest
      else
        match splitSlash rest with
        | [] => [[c]]
        | s :: ss => (c :: s) :: ss

/-- Path normalization over segments, as performed by `path.join` /
the filesystem's resolution: empty and `.` segments vanish, `..` pops
the previous segment. -/
def normAux : List (List Char) → List (List Char) → List (List Char)
  | acc, [] => acc
  | acc, s :: rest =>
      if s = [] ∨ s = ['.'] then normAux acc rest
      else if s = ['.', '.'] then normAux acc.dropLast rest
      else normAux (acc ++ [s]) rest

/-- The segments that survive normalization of a `..`-free path. -/
def cleanSegs (l : List (List Char)) : List (List Char) :=
  l.filter (fun s => decide (¬(s = [] ∨ s = ['.'])))

/-- Outcome of the GET `/api/logs/:filename` handler: 400 Invalid
filename, or a filesystem read of a resolved path. -/
inductive LogsResult where
  | invalid
  | read (p : List (List Char))
  deriving DecidableEq

/-- GET `/api/logs/:filename`: the traversal guard, then
`fs.readFile(path.join(logsDirectory, filename))`.  `logsDir` is the
(already normalized) segment list of `logsDirectory`. -/
def logsHandler (logsDir : List (List Char)) (filename : List Char) : LogsResult :=
  if hasDD filename || !endsWithLog filename then .invalid
  else .read (normAux logsDir (splitSlash filename))

/-! ## Claim C1 — the periodic expiry sweep -/

/-- A database with an over-age `pending` duel (id 1) and an over-age
`active` duel (id 2), both created at time 0, with both participants
holding a balance. -/
def dbC1 : AppDB :=
  { duels := [⟨1, 10, 11, "pending", none, 0⟩, ⟨2, 10, 11, "active", none, 0⟩],
    users := [(10, 50), (11, 50)],
    transactions := [] }

/-- C1 counterexample: at time 600000 ms (both duels are older than the
5-minute window), the sweep deletes the `pending` duel outright — no row
in status `expired` or `cancelled` survives, contradicting "the duel row
is retained" — while the over-age `active` duel is not transitioned at
all, and no balance is refunded. -/
theorem cleanupExpiredDuels_cex :
    (¬ ∃ d ∈ (cleanupExpiredDuels 600000 dbC1).duels, d.id = 1) ∧
    (∃ d ∈ dbC1.duels, d.id = 1 ∧ d.status = "pending" ∧
        d.created_at < 600000 - 5 * 60 * 1000) ∧
    (∃ d ∈ dbC1.duels, d.id = 2 ∧ d.status = "active" ∧
        d.created_at < 600000 - 5 * 60 * 1000) ∧
    (∃ d ∈ (cleanupExpiredDuels 600000 dbC1).duels, d.id = 2 ∧ d.status = "active") ∧
    (cleanupExpiredDuels 600000 dbC1).users = dbC1.users := by
  decide

/-- C1 (amended): one run of the sweep deletes every duel row in status
`pending` created more than five minutes before the sweep; duels in any
other status (in particular `active`) and duels within the window are
untouched, balances and transaction history are untouched, and
re-running the sweep at the same instant changes nothing. -/
theorem cleanupExpiredDuels_amended (now : Int) (db : AppDB) :
    (∀ d ∈ db.duels, d.status = "pending" → d.created_at < now - 5 * 60 * 1000 →
        d ∉ (cleanupExpiredDuels now db).duels) ∧
    (∀ d ∈ db.duels, d.status ≠ "pending" → d ∈ (cleanupExpiredDuels now db).duels) ∧
    (∀ d ∈ db.duels, ¬ d.created_at < now - 5 * 60 * 1000 →
        d ∈ (cleanupExpiredDuels now db).duels) ∧
    (cleanupExpiredDuels now db).users = db.users ∧
    (cleanupExpiredDuels now db).transactions = db.transactions ∧
    cleanupExpiredDuels now (cleanupExpiredDuels now db) = cleanupExpiredDuels now db := by
  refine ⟨?_, ?_, ?_, rfl, rfl, ?_⟩
  · intro d hd hpend hold hmem
    rw [cleanupExpiredDuels, List.mem_filter] at hmem
    simp only [decide_eq_true_eq] at hmem
    exact hmem.2 ⟨hpend, hold⟩
  · intro d hd hstat
    rw [cleanupExpiredDuels, List.mem_filter]
    simp only [decide_eq_true_eq]
    exact ⟨hd, fun h => hstat h.1⟩
  · intro d hd hyoung
    rw [cleanupExpiredDuels, List.mem_filter]
    simp only [decide_eq_true_eq]
    exact ⟨hd, fun h => hyoung h.2⟩
  · simp [cleanupExpiredDuels, List.filter_filter]

/-! ## Claim C2 — monetary columns -/

/-- C2 counterexample: `users.balance` is typed `DECIMAL(12, 2)`, which
is not an integer column type; the fractional value `0.50` and the
negative value `-1` are both representable in it, so the schema neither
forces integral gem amounts nor non-negative balances. -/
theorem monetaryColumns_cex :
    columnType usersColumns "balance" = some (ColType.decimalPS 12 2) ∧
    isIntegerColumn (ColType.decimalPS 12 2) = false ∧
    decimalRepresentable 12 2 ((1 : ℚ) / 2) ∧
    (¬ ∃ n : ℤ, ((1 : ℚ) / 2) = (n : ℚ)) ∧
    decimalRepresentable 12 2 (-1) := by
  refine ⟨rfl, rfl, ⟨50, by norm_num⟩, ?_, ⟨-100, by norm_num⟩⟩
  rintro ⟨n, hn⟩
  have h2 : (1 : ℚ) = 2 * (n : ℚ) := by linarith
  have h3 : (1 : ℤ) = 2 * n := by exact_mod_cast h2
  omega

/-- C2 (amended): every persisted monetary column (`users.balance`,
`transactions.amount`, `duels.amount`, `payouts.amount`) is typed
`DECIMAL(12, 2)` — an exact fixed-point type, never binary floating
point: every representable value is exactly `k / 100` for an integer
`k` — but it admits fractional (hundredths) and negative values, and
the schema places no non-negativity constraint on `balance`. -/
theorem monetaryColumns_amended :
    columnType usersColumns "balance" = some (ColType.decimalPS 12 2) ∧
    columnType transactionsColumns "amount" = some (ColType.decimalPS 12 2) ∧
    columnType duelsColumns "amount" = some (ColType.decimalPS 12 2) ∧
    columnType payoutsColumns "amount" = some (ColType.decimalPS 12 2) ∧
    (∀ q : ℚ, decimalRepresentable 12 2 q → ∃ k : ℤ, q = (k : ℚ) / 100) ∧
    decimalRepresentable 12 2 ((1 : ℚ) / 2) ∧
    decimalRepresentable 12 2 (-1) := by
  refine ⟨rfl, rfl, rfl, rfl, ?_, ⟨50, by norm_num⟩, ⟨-100, by norm_num⟩⟩
  rintro q ⟨k, _, hq⟩
  exact ⟨k, by rw [hq]; norm_num⟩

/-- C2 witness for the amended exactness clause, applied at the
concrete value `0.50`. -/
theorem monetaryColumns_amended_witness :
    ∃ k : ℤ, ((1 : ℚ) / 2) = (k : ℚ) / 100 :=
  monetaryColumns_amended.2.2.2.2.1 ((1 : ℚ) / 2) ⟨50, by norm_num⟩

/-! ## Claim C3 — idempotent deposit crediting -/

/-- A hash with no history row is not found by the duplicate lookup. -/
theorem hashCount_zero_find? {st : Ledger} {h : String} (hz : hashCount st h = 0) :
    st.history.find? (fun r => decide (r.txHash = h)) = none := by
  rw [List.find?_eq_none]
  exact fun r hr => by
    have := (List.countP_eq_zero.mp hz) r hr
    simpa using this

/-- Effect of one `creditDeposit` call on the number of rows carrying a
given hash: a fresh hash gains its single row, everything else is
untouched. -/
theorem creditDeposit_hashCount (h' : String) (a : Nat) (amt : Int)
    (st : Ledger) (h : String) :
    hashCount (creditDeposit h' a amt st).2 h =
      if h' = h ∧ hashCount st h = 0 then 1 else hashCount st h := by
  cases hfind : st.history.find? (fun r => decide (r.txHash = h')) with
  | some r =>
      have hmem := List.mem_of_find?_eq_some hfind
      have hpr : r.txHash = h' := by simpa using List.find?_some hfind
      have hneg : ¬(h' = h ∧ hashCount st h = 0) := by
        rintro ⟨rfl, hz⟩
        exact absurd ((List.countP_eq_zero.mp hz) r hmem) (by simp [hpr])
      simp only [creditDeposit, hfind, if_neg hneg]
  | none =>
      have hall := List.find?_eq_none.mp hfind
      simp only [creditDeposit, hfind, hashCount, List.countP_cons]
      by_cases hh : h' = h
      · subst hh
        have hz : st.history.countP (fun r => decide (r.txHash = h')) = 0 :=
          List.countP_eq_zero.mpr (fun r hr => by simpa using hall r hr)
        simp [hz]
      · simp [hh, hashCount]

/-- Once a hash has exactly one row, any further sequence of
`creditDeposit` calls (any hashes, accounts and amounts, in any order)
leaves it with exactly one row. -/
theorem applyCredits_hashCount_one (h : String) :
    ∀ (calls : List (String × Nat × Int)) (st : Ledger),
      hashCount st h = 1 → hashCount (applyCredits calls st) h = 1 := by
  intro calls
  induction calls with
  | nil => intro st h1; simpa [applyCredits] using h1
  | cons c cs ih =>
      intro st h1
      have hstep : hashCount (creditDeposit c.1 c.2.1 c.2.2 st).2 h = 1 := by
        rw [creditDeposit_hashCount]
        rw [h1]
        simp
      have : applyCredits (c :: cs) st = applyCredits cs (creditDeposit c.1 c.2.1 c.2.2 st).2 := by
        simp [applyCredits, List.foldl_cons]
      rw [this]
      exact ih _ hstep

/-- C3: `creditDeposit` is idempotent on `tx_hash`.  For a hash not yet
credited: the second call with the same hash is a no-op that returns the
original result (the same row and the same state); exactly one
`transactions` row exists for the hash; the balance increase is applied
exactly once; and no further sequence of credit calls, in any order,
ever produces a second row for that hash. -/
theorem creditDeposit_idempotent (h : String) (a : Nat) (amt : Int) (st : Ledger)
    (hfresh : hashCount st h = 0) :
    creditDeposit h a amt (creditDeposit h a amt st).2 = creditDeposit h a amt st ∧
    hashCount (creditDeposit h a amt st).2 h = 1 ∧
    getBal (creditDeposit h a amt st).2 a = getBal st a + amt ∧
    ∀ calls : List (String × Nat × Int),
      hashCount (applyCredits calls (creditDeposit h a amt st).2) h = 1 := by
  have hnone := hashCount_zero_find? hfresh
  have hcount : hashCount (creditDeposit h a amt st).2 h = 1 := by
    rw [creditDeposit_hashCount, if_pos ⟨rfl, hfresh⟩]
  refine ⟨?_, hcount, ?_, fun calls => applyCredits_hashCount_one h calls _ hcount⟩
  · simp [creditDeposit, hnone, List.find?_cons_of_pos]
  · simp [creditDeposit, hnone, getBal, List.lookup]

/-- C3 witness: crediting hash `"0xabc"` twice on an empty ledger. -/
theorem creditDeposit_idempotent_witness :
    hashCount ⟨[], []⟩ "0xabc" = 0 ∧
    creditDeposit "0xabc" 1 25 (creditDeposit "0xabc" 1 25 ⟨[], []⟩).2
      = creditDeposit "0xabc" 1 25 ⟨[], []⟩ :=
  ⟨by decide, (creditDeposit_idempotent "0xabc" 1 25 ⟨[], []⟩ (by decide)).1⟩

/-! ## Claims C4 and C5 — the confirm-result transition -/

/-- A passing participant check leaves the handler on its update path. -/
theorem duelCheckRows_isEmpty_false {db : AppDB} {duelId userId : Nat}
    (hauth : ∃ d ∈ db.duels, d.id = duelId ∧ (d.player1 = userId ∨ d.player2 = userId)) :
    (duelCheckRows db duelId userId).isEmpty = false := by
  obtain ⟨d, hd, hp⟩ := hauth
  have hmem : d ∈ duelCheckRows db duelId userId :=
    List.mem_filter.mpr ⟨hd, by simpa using hp⟩
  cases hf : duelCheckRows db duelId userId with
  | nil => rw [hf] at hmem; cases hmem
  | cons a l => rfl

/-- Closed form of the handler when the participant check passes. -/
theorem confirmResult_eq {db : AppDB} {duelId userId : Nat}
    (hauth : ∃ d ∈ db.duels, d.id = duelId ∧ (d.player1 = userId ∨ d.player2 = userId)) :
    confirmResult db duelId userId =
      ((if 0 < unseenCount db duelId then ApiResp.ok else ApiResp.conflict),
       { db with duels := db.duels.map (applyConfirm duelId) }) := by
  simp only [confirmResult, duelCheckRows_isEmpty_false hauth, Bool.false_eq_true, if_false]
  by_cases hc : 0 < unseenCount db duelId <;> simp [hc]

/-- The guarded UPDATE leaves a row untouched unless it matches both the
id and the expected status. -/
theorem applyConfirm_not_unseen {duelId : Nat} (d : DuelRow)
    (h : ¬(d.id = duelId ∧ d.status = "completed_unseen")) :
    applyConfirm duelId d = d := by
  simp [applyConfirm, h]

/-- If no row matches the guard, the UPDATE is the identity. -/
theorem map_applyConfirm_no_unseen {l : List DuelRow} {duelId : Nat}
    (hz : ∀ d ∈ l, ¬(d.id = duelId ∧ d.status = "completed_unseen")) :
    l.map (applyConfirm duelId) = l := by
  rw [show l.map (applyConfirm duelId) = l.map id from
        List.map_congr_left (fun d hd => applyConfirm_not_unseen d (hz d hd)),
      List.map_id]

/-- After the guarded UPDATE runs, no row with the duel's id is still
`completed_unseen`. -/
theorem post_no_unseen (db : AppDB) (duelId : Nat) :
    ∀ d' ∈ db.duels.map (applyConfirm duelId),
      ¬(d'.id = duelId ∧ d'.status = "completed_unseen") := by
  intro d' hd'
  obtain ⟨d, hd, rfl⟩ := List.mem_map.mp hd'
  by_cases hc : d.id = duelId ∧ d.status = "completed_unseen"
  · rw [applyConfirm, if_pos hc]
    intro hcontra
    have h2 : "completed" = "completed_unseen" := hcontra.2
    exact absurd h2 (by decide)
  · rw [applyConfirm_not_unseen d hc]
    exact hc

/-- The second run of the guarded UPDATE affects zero rows. -/
theorem unseenCount_post (db : AppDB) (duelId : Nat) :
    unseenCount { db with duels := db.duels.map (applyConfirm duelId) } duelId = 0 := by
  rw [unseenCount, List.countP_eq_zero]
  intro d hd
  simpa using post_no_unseen db duelId d hd

/-- When the participant check passes but no row matches the status
guard, the handler answers 409 Conflict and changes nothing. -/
theorem confirmResult_no_unseen {db : AppDB} {duelId userId : Nat}
    (hauth : ∃ d ∈ db.duels, d.id = duelId ∧ (d.player1 = userId ∨ d.player2 = userId))
    (hz : ∀ d ∈ db.duels, ¬(d.id = duelId ∧ d.status = "completed_unseen")) :
    confirmResult db duelId userId = (.conflict, db) := by
  have hcnt : unseenCount db duelId = 0 := by
    rw [unseenCount, List.countP_eq_zero]
    intro d hd; simpa using hz d hd
  rw [confirmResult_eq hauth, hcnt, map_applyConfirm_no_unseen hz]
  rfl

/-- The participant check still passes after the status flip (the row is
kept, only its status changes). -/
theorem auth_post {db : AppDB} {duelId userId : Nat}
    (hauth : ∃ d ∈ db.duels, d.id = duelId ∧ (d.player1 = userId ∨ d.player2 = userId)) :
    ∃ d ∈ ({ db with duels := db.duels.map (applyConfirm duelId) } : AppDB).duels,
      d.id = duelId ∧ (d.player1 = userId ∨ d.player2 = userId) := by
  obtain ⟨d, hd, hp⟩ := hauth
  refine ⟨applyConfirm duelId d, List.mem_map.mpr ⟨d, hd, rfl⟩, ?_⟩
  by_cases hc : d.id = duelId ∧ d.status = "completed_unseen"
  · rw [applyConfirm, if_pos hc]; exact hp
  · rw [applyConfirm_not_unseen d hc]; exact hp

/-- C4: for a caller who is a participant, the confirmation flips
`completed_unseen → completed` only when the current status is
`completed_unseen`; against a duel in any other status it updates zero
rows, leaves the whole state unchanged and answers 409 Conflict (not a
hard error); matching rows are flipped and non-matching rows kept; and
confirming a second time leaves the state of the first confirmation
unchanged and answers 409 Conflict. -/
theorem confirmResult_statusGuard (db : AppDB) (duelId userId : Nat)
    (hauth : ∃ d ∈ db.duels, d.id = duelId ∧ (d.player1 = userId ∨ d.player2 = userId)) :
    ((∀ d ∈ db.duels, d.id = duelId → d.status ≠ "completed_unseen") →
        confirmResult db duelId userId = (.conflict, db)) ∧
    ((∃ d ∈ db.duels, d.id = duelId ∧ d.status = "completed_unseen") →
        (confirmResult db duelId userId).1 = .ok) ∧
    (∀ d ∈ db.duels, d.id = duelId → d.status = "completed_unseen" →
        { d with status := "completed" } ∈ (confirmResult db duelId userId).2.duels) ∧
    (∀ d ∈ db.duels, ¬(d.id = duelId ∧ d.status = "completed_unseen") →
        d ∈ (confirmResult db duelId userId).2.duels) ∧
    (confirmResult (confirmResult db duelId userId).2 duelId userId).2
        = (confirmResult db duelId userId).2 ∧
    (confirmResult (confirmResult db duelId userId).2 duelId userId).1 = .conflict := by
  have hEq := confirmResult_eq hauth
  have hFst : (confirmResult db duelId userId).1
      = (if 0 < unseenCount db duelId then ApiResp.ok else ApiResp.conflict) := by
    rw [hEq]
  have hSt : (confirmResult db duelId userId).2
      = { db with duels := db.duels.map (applyConfirm duelId) } := by
    rw [hEq]
  have hauth₁ : ∃ d ∈ (confirmResult db duelId userId).2.duels,
      d.id = duelId ∧ (d.player1 = userId ∨ d.player2 = userId) := by
    rw [hSt]; exact auth_post hauth
  have hz₁ : ∀ d ∈ (confirmResult db duelId userId).2.duels,
      ¬(d.id = duelId ∧ d.status = "completed_unseen") := by
    rw [hSt]; exact post_no_unseen db duelId
  have hsecond := confirmResult_no_unseen hauth₁ hz₁
  refine ⟨?_, ?_, ?_, ?_, ?_, ?_⟩
  · intro hz'
    have hz : ∀ d ∈ db.duels, ¬(d.id = duelId ∧ d.status = "completed_unseen") :=
      fun d hd hc => hz' d hd hc.1 hc.2
    exact confirmResult_no_unseen hauth hz
  · rintro ⟨d, hd, h1, h2⟩
    have hcnt : 0 < unseenCount db duelId := by
      rw [unseenCount, List.countP_pos_iff]
      exact ⟨d, hd, by simpa using And.intro h1 h2⟩
    rw [hFst]
    simp [hcnt]
  · intro d hd h1 h2
    rw [hSt]
    exact List.mem_map.mpr ⟨d, hd, by rw [applyConfirm, if_pos ⟨h1, h2⟩]⟩
  · intro d hd hc
    rw [hSt]
    exact List.mem_map.mpr ⟨d, hd, applyConfirm_not_unseen d hc⟩
  · rw [hsecond]
  · rw [hsecond]

/-- A concrete database with one `completed_unseen` duel between users 1
and 2. -/
def dbConfirm : AppDB :=
  { duels := [⟨7, 1, 2, "completed_unseen", some 1, 0⟩],
    users := [(1, 100), (2, 0)],
    transactions := [] }

/-- C4 witness: participant 1 confirms duel 7 twice; the duplicate is a
409 Conflict. -/
theorem confirmResult_statusGuard_witness :
    (∃ d ∈ dbConfirm.duels, d.id = 7 ∧ (d.player1 = 1 ∨ d.player2 = 1)) ∧
    (confirmResult (confirmResult dbConfirm 7 1).2 7 1).1 = .conflict :=
  ⟨by decide, (confirmResult_statusGuard dbConfirm 7 1 (by decide)).2.2.2.2.2⟩

/-- C5: the confirmation is a pure read-receipt: a caller who is not one
of the duel's two participants is rejected with 403 and no state change;
in every case balances (`users`) and the `transactions` history are
untouched, and the `duels` table changes only row-wise in the `status`
field — id, participants, winner and creation time of every row are
preserved. -/
theorem confirmResult_readReceipt (db : AppDB) (duelId userId : Nat) :
    ((¬ ∃ d ∈ db.duels, d.id = duelId ∧ (d.player1 = userId ∨ d.player2 = userId)) →
        confirmResult db duelId userId = (.forbidden, db)) ∧
    (confirmResult db duelId userId).2.users = db.users ∧
    (confirmResult db duelId userId).2.transactions = db.transactions ∧
    ∃ f : DuelRow → DuelRow,
      (confirmResult db duelId userId).2.duels = db.duels.map f ∧
      ∀ d : DuelRow, (f d).id = d.id ∧ (f d).player1 = d.player1 ∧
        (f d).player2 = d.player2 ∧ (f d).winner = d.winner ∧
        (f d).created_at = d.created_at := by
  refine ⟨?_, ?_, ?_, ?_⟩
  · intro hn
    have hfil : duelCheckRows db duelId userId = [] := by
      rw [duelCheckRows, List.filter_eq_nil_iff]
      intro d hd
      simpa using fun hc => hn ⟨d, hd, hc⟩
    simp [confirmResult, hfil]
  · rw [confirmResult]
    split
    · rfl
    · split <;> rfl
  · rw [confirmResult]
    split
    · rfl
    · split <;> rfl
  · by_cases hE : (duelCheckRows db duelId userId).isEmpty = true
    · refine ⟨id, ?_, by simp⟩
      rw [confirmResult, if_pos hE, List.map_id]
    · refine ⟨applyConfirm duelId, ?_, ?_⟩
      · rw [confirmResult, if_neg hE]
        split <;> rfl
      · intro d
        by_cases hc : d.id = duelId ∧ d.status = "completed_unseen"
        · rw [applyConfirm, if_pos hc]
          exact ⟨rfl, rfl, rfl, rfl, rfl⟩
        · rw [applyConfirm_not_unseen d hc]
          simp

/-- C5 witness: user 99 is not a participant of duel 7 and is rejected
with 403 and no state change. -/
theorem confirmResult_readReceipt_witness :
    confirmResult dbConfirm 7 99 = (.forbidden, dbConfirm) :=
  (confirmResult_readReceipt dbConfirm 7 99).1 (by decide)

/-- C1 witness: the sweep is idempotent at the concrete database. -/
theorem cleanupExpiredDuels_amended_witness :
    cleanupExpiredDuels 600000 (cleanupExpiredDuels 600000 dbC1)
      = cleanupExpiredDuels 600000 dbC1 :=
  (cleanupExpiredDuels_amended 600000 dbC1).2.2.2.2.2

/-! ## Claim C6 — the listener's feed subscription -/

/-- C6: at a store holding the single monitored address `"0xabc"`,
module initialization subscribes with an **empty** `toAddress` filter —
`Array.from(monitoredAddresses)` runs synchronously before the deferred
`loadMonitoredAddresses()` continuation replaces the set — even though
the working set does end up holding the address; the detection callback
itself notifies the Confirmation Service exactly when the transaction
has a to-address whose lowercasing is in the current working set. -/
theorem initListener_emptyFilter :
    (initListener ["0xabc"]).subFilter = [] ∧
    "0xabc" ∈ (initListener ["0xabc"]).monitored ∧
    (∀ (m : List String) (txTo : Option String),
      onPendingTx m txTo = true ↔ ∃ a, txTo = some a ∧ m.contains (jsToLower a)) := by
  refine ⟨rfl, by simp [initListener], ?_⟩
  intro m txTo
  cases txTo with
  | none => simp [onPendingTx]
  | some a =>
      simp only [onPendingTx]
      constructor
      · intro h; exact ⟨a, rfl, h⟩
      · rintro ⟨a', ha', hc⟩
        injection ha' with h
        rw [h]
        exact hc

/-! ## Claim C7 — working set mirrors the store -/

/-- `addMonitoredAddress` early-returns when the lowercased address is
already in the working set. -/
theorem addMonitoredAddress_noop {st : ListenerState} {a : String}
    (h : jsToLower a ∈ st.monitored) : addMonitoredAddress st a = st := by
  rw [addMonitoredAddress, if_pos h]

/-- C7: starting from a mirrored state (working set = store), after
`watch(address)` the lowercased address is in both the store and the
working set and watching the same address again changes nothing; after
`unwatch(address)` the lowercased address is in neither; a reload makes
the working set exactly the store's address set; and both `watch` and
`unwatch` preserve the mirror invariant. -/
theorem listener_mirror (st : ListenerState) (a : String) (st' : ListenerState)
    (hm : st.monitored = st.store) :
    jsToLower a ∈ (addMonitoredAddress st a).store ∧
    jsToLower a ∈ (addMonitoredAddress st a).monitored ∧
    addMonitoredAddress (addMonitoredAddress st a) a = addMonitoredAddress st a ∧
    jsToLower a ∉ (removeMonitoredAddress st a).store ∧
    jsToLower a ∉ (removeMonitoredAddress st a).monitored ∧
    (loadMonitoredAddresses st').monitored = st'.store ∧
    (addMonitoredAddress st a).monitored = (addMonitoredAddress st a).store ∧
    (removeMonitoredAddress st a).monitored = (removeMonitoredAddress st a).store := by
  have hmon : jsToLower a ∈ (addMonitoredAddress st a).monitored := by
    by_cases hc : jsToLower a ∈ st.monitored
    · rw [addMonitoredAddress_noop hc]; exact hc
    · rw [addMonitoredAddress, if_neg hc]; exact Finset.mem_insert_self _ _
  have hstore : jsToLower a ∈ (addMonitoredAddress st a).store := by
    by_cases hc : jsToLower a ∈ st.monitored
    · rw [addMonitoredAddress_noop hc]; exact hm ▸ hc
    · rw [addMonitoredAddress, if_neg hc]; exact Finset.mem_insert_self _ _
  refine ⟨hstore, hmon, addMonitoredAddress_noop hmon, ?_, ?_, rfl, ?_, ?_⟩
  · exact Finset.not_mem_erase _ _
  · exact Finset.not_mem_erase _ _
  · by_cases hc : jsToLower a ∈ st.monitored
    · rw [addMonitoredAddress_noop hc]; exact hm
    · rw [addMonitoredAddress, if_neg hc, hm]
  · rw [removeMonitoredAddress, hm]

/-- C7 witness: watching `"0xAB"` on a mirrored one-address state. -/
theorem listener_mirror_witness :
    (⟨{"0xaa"}, {"0xaa"}⟩ : ListenerState).monitored
      = (⟨{"0xaa"}, {"0xaa"}⟩ : ListenerState).store ∧
    jsToLower "0xAB" ∈ (addMonitoredAddress ⟨{"0xaa"}, {"0xaa"}⟩ "0xAB").store :=
  ⟨rfl, (listener_mirror ⟨{"0xaa"}, {"0xaa"}⟩ "0xAB" ⟨∅, ∅⟩ rfl).1⟩

/-! ## Claim C8 — bot callbacks are shared-secret authenticated -/

/-- C8: with a non-empty bot API key configured, the `authenticateBot`
middleware passes the request through exactly when the `x-api-key`
header equals the configured key; any other request is rejected 401
Unauthorized and the heartbeat handler leaves the status map unchanged;
and the outcome depends only on the `x-api-key` header — no
`Authorization` header and no session user is consulted. -/
theorem authenticateBot_sharedSecret (req : BotRequest) (k : String)
    (region : String) (now : Int) (bots : List (String × Int)) (hk : k ≠ "") :
    (authenticateBot req (some k) = .next ↔ req.xApiKey = some k) ∧
    (req.xApiKey ≠ some k →
        authenticateBot req (some k) = .unauthorized ∧
        (heartbeatRoute req (some k) region now bots).2 = bots) ∧
    (∀ req' : BotRequest, req'.xApiKey = req.xApiKey →
        authenticateBot req' (some k) = authenticateBot req (some k)) := by
  have htr : jsTruthy (some k) = true := by simpa [jsTruthy] using hk
  have main : ∀ x : Option String,
      (if jsTruthy x && (x == some k) then AuthOutcome.next else .unauthorized) = .next
        ↔ x = some k := by
    intro x
    by_cases hx : x = some k
    · subst hx
      simp [htr]
    · have hbeq : (x == some k) = false := beq_eq_false_iff_ne.mpr hx
      simp [hbeq, hx]
  refine ⟨?_, ?_, ?_⟩
  · rw [authenticateBot, if_pos htr]
    exact main req.xApiKey
  · intro hx
    have hu : authenticateBot req (some k) = .unauthorized := by
      rw [authenticateBot, if_pos htr]
      have hbeq : (req.xApiKey == some k) = false := beq_eq_false_iff_ne.mpr hx
      simp [hbeq]
    exact ⟨hu, by simp [heartbeatRoute, hu]⟩
  · intro req' h
    rw [authenticateBot, authenticateBot, h]

/-- C8 witness: the configured key `"secret"`, presented in `x-api-key`,
passes the middleware regardless of any session data in the request. -/
theorem authenticateBot_sharedSecret_witness :
    ("secret" : String) ≠ "" ∧
    authenticateBot ⟨some "secret", some "Bearer t", some 7⟩ (some "secret") = .next :=
  ⟨by decide,
   ((authenticateBot_sharedSecret ⟨some "secret", some "Bearer t", some 7⟩
      "secret" "Europe" 0 [] (by decide)).1).mpr rfl⟩

/-! ## Claim C10 — heartbeat regions and the 45-second threshold -/

/-- `List.lookup` only returns values paired with the key. -/
theorem lookup_mem {l : List (String × Int)} {k : String} {v : Int}
    (h : l.lookup k = some v) : (k, v) ∈ l := by
  induction l with
  | nil => cases h
  | cons p rest ih =>
      obtain ⟨k', v'⟩ := p
      by_cases hk : k = k'
      · subst hk
        simp [List.lookup] at h
        rw [← h]
        exact List.mem_cons_self _ _
      · have hbeq : (k == k') = false := beq_eq_false_iff_ne.mpr hk
        simp [List.lookup, hbeq] at h
        exact List.mem_cons_of_mem _ (ih h)

/-- Membership in the `/api/status/bots` response. -/
theorem mem_getBots {bots : List (String × Int)} {now : Int} {r : String} {b : Bool} :
    (r, b) ∈ getBots bots now ↔ r ∈ displayRegions ∧ botOnline bots now r = b := by
  constructor
  · intro h
    obtain ⟨r', hr', heq⟩ := List.mem_map.mp h
    obtain ⟨h1, h2⟩ := Prod.mk.injEq .. ▸ heq
    subst h1
    exact ⟨hr', h2⟩
  · rintro ⟨hr, hb⟩
    exact List.mem_map.mpr ⟨r, hr, by rw [hb]⟩

/-- The online test, under physically-sane heartbeat timestamps
(positive, recorded no later than the query). -/
theorem botOnline_iff {bots : List (String × Int)} {now : Int} {r : String}
    (hpos : ∀ p ∈ bots, 0 < p.2 ∧ p.2 ≤ now) :
    botOnline bots now r = true ↔
      ∃ t, bots.lookup r = some t ∧ now - t < botOfflineThreshold := by
  cases hl : bots.lookup r with
  | none => simp [botOnline, hl]
  | some t =>
      have hne : ¬ t = 0 := by
        have := (hpos _ (lookup_mem hl)).1
        omega
      simp [botOnline, hl, hne]

/-- C10: a heartbeat for a region outside
`{Oceania, Europe, North America}` is rejected by the validator and
records nothing; for every displayed region the bots query reports
`online` exactly when a heartbeat was recorded strictly less than 45000
milliseconds before the query; a region with no recorded heartbeat is
always reported `offline`. -/
theorem botStatus_threshold (bots : List (String × Int)) (now : Int)
    (req : BotRequest) (k : String) (region : String)
    (hpos : ∀ p ∈ bots, 0 < p.2 ∧ p.2 ≤ now) :
    (region ∉ heartbeatRegions → (heartbeatRoute req (some k) region now bots).2 = bots) ∧
    (∀ r ∈ displayRegions, ((r, true) ∈ getBots bots now ↔
        ∃ t, bots.lookup r = some t ∧ now - t < botOfflineThreshold)) ∧
    (∀ r ∈ displayRegions, bots.lookup r = none →
        (r, false) ∈ getBots bots now ∧ (r, true) ∉ getBots bots now) := by
  refine ⟨?_, ?_, ?_⟩
  · intro hreg
    cases h : authenticateBot req (some k) <;> simp [heartbeatRoute, h, hreg]
  · intro r hr
    constructor
    · intro h
      exact (botOnline_iff hpos).mp (mem_getBots.mp h).2
    · intro h
      exact mem_getBots.mpr ⟨hr, (botOnline_iff hpos).mpr h⟩
  · intro r hr hnone
    have hoff : botOnline bots now r = false := by simp [botOnline, hnone]
    refine ⟨mem_getBots.mpr ⟨hr, hoff⟩, ?_⟩
    intro hmem
    have honl := (mem_getBots.mp hmem).2
    rw [hoff] at honl
    cases honl

/-- C10 witness: a heartbeat recorded at 100 ms and queried at 200 ms is
reported online. -/
theorem botStatus_threshold_witness :
    (∀ p ∈ [(("Europe" : String), (100 : Int))], 0 < p.2 ∧ p.2 ≤ (200 : Int)) ∧
    ("Europe", true) ∈ getBots [("Europe", 100)] 200 :=
  ⟨by decide,
   ((botStatus_threshold [("Europe", 100)] 200 ⟨none, none, none⟩ "key" "Mars"
      (by decide)).2.1 "Europe" (by decide)).mpr ⟨100, by decide, by decide⟩⟩

/-! ## Claim C9 — log filename guard and path containment -/

/-- Consing a character cannot destroy an existing `".."` occurrence. -/
theorem hasDD_cons {rest : List Char} (c : Char) (h : hasDD rest = true) :
    hasDD (c :: rest) = true := by
  cases rest with
  | nil => cases h
  | cons b r => simp [hasDD, h]

/-- `splitSlash` always yields at least one segment. -/
theorem splitSlash_ne_nil (cs : List Char) : splitSlash cs ≠ [] := by
  cases cs with
  | nil => simp [splitSlash]
  | cons c rest =>
      rw [splitSlash]
      by_cases hc : c = '/'
      · simp [hc]
      · rw [if_neg hc]
        cases h : splitSlash rest with
        | nil => simp
        | cons s ss => simp

/-- Unfolding equation: a leading slash opens a fresh empty segment. -/
theorem splitSlash_cons_slash (rest : List Char) :
    splitSlash ('/' :: rest) = [] :: splitSlash rest := by
  rw [splitSlash, if_pos rfl]

/-- Unfolding equation: a non-slash character extends the first segment. -/
theorem splitSlash_cons_ne (c : Char) (rest : List Char) (hc : ¬ c = '/')
    {t : List Char} {ts : List (List Char)} (h : splitSlash rest = t :: ts) :
    splitSlash (c :: rest) = (c :: t) :: ts := by
  rw [splitSlash, if_neg hc, h]

/-- The first segment of a split is an initial part of the input. -/
theorem splitSlash_head_part : ∀ (cs : List Char) {s : List Char}
    {ss : List (List Char)}, splitSlash cs = s :: ss → ∃ r2, cs = s ++ r2 := by
  intro cs
  induction cs with
  | nil =>
      intro s ss h
      rw [splitSlash] at h
      injection h with h1 h2
      exact ⟨[], by rw [← h1]; rfl⟩
  | cons c rest ih =>
      intro s ss h
      by_cases hc : c = '/'
      · subst hc
        rw [splitSlash_cons_slash] at h
        injection h with h1 h2
        exact ⟨'/' :: rest, by rw [← h1]; rfl⟩
      · cases hrec : splitSlash rest with
        | nil => exact absurd hrec (splitSlash_ne_nil rest)
        | cons t ts =>
            rw [splitSlash_cons_ne c rest hc hrec] at h
            injection h with h1 h2
            obtain ⟨r2, hr2⟩ := ih hrec
            exact ⟨r2, by rw [← h1, List.cons_append, ← hr2]⟩

/-- A slash-free input splits into itself. -/
theorem noSlash_splitSlash : ∀ (cs : List Char), '/' ∉ cs → splitSlash cs = [cs] := by
  intro cs
  induction cs with
  | nil => intro _; rfl
  | cons c rest ih =>
      intro h
      have hc : ¬ c = '/' := by
        intro he
        exact h (by rw [he]; exact List.mem_cons_self _ _)
      have hr : '/' ∉ rest := fun hm => h (List.mem_cons_of_mem _ hm)
      rw [splitSlash_cons_ne c rest hc (ih hr)]

/-- A `".."` segment can only come from a `".."` substring. -/
theorem seg_dotdot_hasDD : ∀ (cs seg : List Char), seg ∈ splitSlash cs →
    seg = ['.', '.'] → hasDD cs = true := by
  intro cs
  induction cs with
  | nil =>
      intro seg hm he
      rw [splitSlash] at hm
      simp at hm
      rw [hm] at he
      exact absurd he (by decide)
  | cons c rest ih =>
      intro seg hm he
      by_cases hc : c = '/'
      · subst hc
        rw [splitSlash_cons_slash] at hm
        rcases List.mem_cons.mp hm with h1 | h2
        · rw [h1] at he
          exact absurd he (by decide)
        · exact hasDD_cons '/' (ih seg h2 he)
      · cases hrec : splitSlash rest with
        | nil => exact absurd hrec (splitSlash_ne_nil rest)
        | cons t ts =>
            rw [splitSlash_cons_ne c rest hc hrec] at hm
            rcases List.mem_cons.mp hm with h1 | h2
            · have hct : c :: t = ['.', '.'] := h1.symm.trans he
              injection hct with hc1 ht
              obtain ⟨r2, hr2⟩ := splitSlash_head_part rest hrec
              rw [ht] at hr2
              rw [hc1, hr2]
              simp [hasDD, List.singleton_append]
            · exact hasDD_cons c
                (ih seg (by rw [hrec]; exact List.mem_cons_of_mem _ h2) he)

/-- The final segment of `pre ++ su` carries the slash-free tail `su`. -/
theorem splitSlash_last (su : List Char) (hsu : '/' ∉ su) :
    ∀ pre : List Char, ∃ l seg, splitSlash (pre ++ su) = l ++ [seg] ∧
      ∃ p2, seg = p2 ++ su := by
  intro pre
  induction pre with
  | nil =>
      refine ⟨[], su, ?_, [], rfl⟩
      rw [List.nil_append, noSlash_splitSlash su hsu]
      rfl
  | cons c pre' ih =>
      obtain ⟨l, seg, hsplit, p2, hseg⟩ := ih
      by_cases hc : c = '/'
      · subst hc
        refine ⟨[] :: l, seg, ?_, p2, hseg⟩
        rw [show ('/' :: pre') ++ su = '/' :: (pre' ++ su) from rfl,
            splitSlash_cons_slash, hsplit]
        rfl
      · cases l with
        | nil =>
            refine ⟨[], c :: seg, ?_, c :: p2, by rw [hseg]; rfl⟩
            rw [show (c :: pre') ++ su = c :: (pre' ++ su) from rfl,
                splitSlash_cons_ne c _ hc hsplit]
            rfl
        | cons l0 l' =>
            refine ⟨(c :: l0) :: l', seg, ?_, p2, hseg⟩
            rw [show (c :: pre') ++ su = c :: (pre' ++ su) from rfl,
                splitSlash_cons_ne c _ hc hsplit]
            rfl

/-- On a `..`-free segment list, normalization just drops empty and `.`
segments and never escapes the accumulated directory. -/
theorem normAux_no_dotdot : ∀ (l acc : List (List Char)),
    (∀ s ∈ l, s ≠ ['.', '.']) → normAux acc l = acc ++ cleanSegs l := by
  intro l
  induction l with
  | nil => intro acc _; simp [normAux, cleanSegs]
  | cons s rest ih =>
      intro acc hz
      by_cases h1 : s = [] ∨ s = ['.']
      · rw [normAux, if_pos h1, ih acc (fun x hx => hz x (List.mem_cons_of_mem _ hx))]
        rcases h1 with h | h <;> simp [cleanSegs, List.filter_cons, h]
      · have h2 : ¬ s = ['.', '.'] := hz s (List.mem_cons_self _ _)
        obtain ⟨ha, hb⟩ := not_or.mp h1
        rw [normAux, if_neg h1, if_neg h2,
            ih _ (fun x hx => hz x (List.mem_cons_of_mem _ hx))]
        simp [cleanSegs, List.filter_cons, ha, hb]

/-- `filename.endsWith('.log')` characterized by a split of the input. -/
theorem endsWithLog_iff (cs : List Char) :
    endsWithLog cs = true ↔ ∃ pre, cs = pre ++ dotLog := by
  rw [endsWithLog, decide_eq_true_eq]
  constructor
  · intro h
    refine ⟨(cs.reverse.drop 4).reverse, ?_⟩
    have hrev : cs.reverse = ['g', 'o', 'l', '.'] ++ cs.reverse.drop 4 := by
      conv_lhs => rw [← List.take_append_drop 4 cs.reverse]
      rw [h]
    calc cs = cs.reverse.reverse := (List.reverse_reverse cs).symm
      _ = (['g', 'o', 'l', '.'] ++ cs.reverse.drop 4).reverse := by rw [← hrev]
      _ = (cs.reverse.drop 4).reverse ++ ['.', 'l', 'o', 'g'] := by
            rw [List.reverse_append]
            rfl
  · rintro ⟨pre, rfl⟩
    rw [List.reverse_append]
    show ((['g', 'o', 'l', '.'] : List Char) ++ pre.reverse).take 4 = ['g', 'o', 'l', '.']
    simp

/-- A kept final segment survives the normalization filter. -/
theorem cleanSegs_concat (l : List (List Char)) (seg : List Char)
    (h1 : seg ≠ []) (h2 : seg ≠ ['.']) :
    cleanSegs (l ++ [seg]) = cleanSegs l ++ [seg] := by
  simp [cleanSegs, List.filter_append, List.filter_cons, h1, h2]

/-- C9: a filename containing `".."` or not ending in `".log"` is
rejected as invalid before any filesystem read; every path the route
does read resolves inside the logs directory (the directory's segments
lead the resolved path) and its final segment carries the `.log`
extension. -/
theorem logsHandler_safe (logsDir : List (List Char)) (fn : List Char) :
    ((hasDD fn = true ∨ endsWithLog fn = false) → logsHandler logsDir fn = .invalid) ∧
    (∀ p, logsHandler logsDir fn = .read p →
        (∃ t, p = logsDir ++ t) ∧
        (∃ seg, p.getLast? = some seg ∧ ∃ p2, seg = p2 ++ dotLog)) := by
  constructor
  · intro h
    rcases h with h | h <;> simp [logsHandler, h]
  · intro p hp
    by_cases hguard : (hasDD fn || !endsWithLog fn) = true
    · rw [logsHandler, if_pos hguard] at hp
      cases hp
    · rw [logsHandler, if_neg hguard] at hp
      injection hp with hp
      subst hp
      simp only [Bool.or_eq_true, Bool.not_eq_true', not_or, Bool.not_eq_true,
        Bool.not_eq_false] at hguard
      obtain ⟨hnd, hel⟩ := hguard
      obtain ⟨pre0, hpre0⟩ := (endsWithLog_iff fn).mp hel
      have hslash : '/' ∉ dotLog := by decide
      obtain ⟨l, seg, hsplit, p2, hseg⟩ := splitSlash_last dotLog hslash pre0
      rw [← hpre0] at hsplit
      have hnodd : ∀ s ∈ splitSlash fn, s ≠ ['.', '.'] := by
        intro s hs he
        have hcon := seg_dotdot_hasDD fn s hs he
        rw [hnd] at hcon
        cases hcon
      have hnorm : normAux logsDir (splitSlash fn) = logsDir ++ cleanSegs (splitSlash fn) :=
        normAux_no_dotdot _ _ hnodd
      have hsegne : seg ≠ [] := by
        rw [hseg]
        intro hcontra
        have hlen := congrArg List.length hcontra
        simp [dotLog] at hlen
      have hsegnd : seg ≠ ['.'] := by
        rw [hseg]
        intro hcontra
        have hlen := congrArg List.length hcontra
        simp [dotLog] at hlen
      have hclean : cleanSegs (splitSlash fn) = cleanSegs l ++ [seg] := by
        rw [hsplit]
        exact cleanSegs_concat l seg hsegne hsegnd
      refine ⟨⟨cleanSegs (splitSlash fn), hnorm⟩, seg, ?_, p2, hseg⟩
      rw [hnorm, hclean, ← List.append_assoc]
      exact List.getLast?_concat _

/-- C9 witness: the filename `"a..b"` (contains `".."`) is rejected. -/
theorem logsHandler_safe_witness :
    logsHandler [['l', 'o', 'g', 's']] ['a', '.', '.', 'b'] = .invalid :=
  (logsHandler_safe [['l', 'o', 'g', 's']] ['a', '.', '.', 'b']).1 (Or.inl (by decide))

end BloxBattles
